import Mathlib

/-!
Verification of `scripts/generate_keymap.py`: a shallow embedding of the
keymap-to-markdown generator (binding decoder, layer extractor, layout
renderer, readme splice) together with theorems settling the specification
claims.  Python strings are modelled as `String`/`List Char`; a Python
function that can raise an exception is modelled with `Option`.
-/

namespace ZmkKeymap

/-- ASCII whitespace recognised by Python's `str.strip()` / `str.split()` and
by the regex class `\s` on ASCII input. -/
def pyWS (c : Char) : Bool :=
  c = ' ' || c = '\t' || c = '\n' || c = '\r' || c = '\x0b' || c = '\x0c'

/-- Python `str.strip()`: remove whitespace from both ends. -/
def pyTrim (l : List Char) : List Char :=
  ((l.dropWhile pyWS).reverse.dropWhile pyWS).reverse

/-- Python `str.lstrip("&")`: remove every leading ampersand. -/
def dropAmp (l : List Char) : List Char := l.dropWhile (fun c => c = '&')

/-- Helper for `wsSplit`; `acc` is the current word, reversed. -/
def wsSplitAux : List Char → List Char → List (List Char)
  | [], acc => if acc.isEmpty then [] else [acc.reverse]
  | c :: cs, acc =>
    if pyWS c then
      if acc.isEmpty then wsSplitAux cs []
      else acc.reverse :: wsSplitAux cs []
    else wsSplitAux cs (c :: acc)

/-- Python `str.split()` with no argument: split on whitespace runs,
discarding empty fragments. -/
def wsSplit (l : List Char) : List (List Char) := wsSplitAux l []

/-- Python `str.capitalize()`: first character upper-cased, the rest
lower-cased (ASCII case mapping). -/
def pyCapitalize (l : List Char) : List Char :=
  match l with
  | [] => []
  | c :: cs => c.toUpper :: cs.map Char.toLower

/-- Python `str.center(w)` (CPython semantics: `left = marg//2 + (marg&w&1)`,
string returned unchanged when already at least `w` long). -/
def pyCenter (w : Nat) (s : String) : String :=
  let n := s.data.length
  if w ≤ n then s
  else
    let marg := w - n
    let left := marg / 2 + (marg % 2) * (w % 2)
    ⟨List.replicate left ' ' ++ s.data ++ List.replicate (marg - left) ' '⟩

/-- Test whether `p` is a literal prefix of `s` (Python `str.startswith`). -/
def swL (p s : String) : Bool := p.data.isPrefixOf s.data

/-- The `KEY_DISPLAY` table of the script (source lines 11-50), in the order
of the Python dict literal. -/
def KEY_DISPLAY : List (String × String) := [
  ("kp A", "A"), ("kp B", "B"), ("kp C", "C"), ("kp D", "D"), ("kp E", "E"),
  ("kp F", "F"), ("kp G", "G"), ("kp H", "H"), ("kp I", "I"), ("kp J", "J"),
  ("kp K", "K"), ("kp L", "L"), ("kp M", "M"), ("kp N", "N"), ("kp O", "O"),
  ("kp P", "P"), ("kp Q", "Q"), ("kp R", "R"), ("kp S", "S"), ("kp T", "T"),
  ("kp U", "U"), ("kp V", "V"), ("kp W", "W"), ("kp X", "X"), ("kp Y", "Y"),
  ("kp Z", "Z"),
  ("kp N0", "0"), ("kp N1", "1"), ("kp N2", "2"), ("kp N3", "3"), ("kp N4", "4"),
  ("kp N5", "5"), ("kp N6", "6"), ("kp N7", "7"), ("kp N8", "8"), ("kp N9", "9"),
  ("kp TAB", "Tab"), ("kp ESCAPE", "Esc"), ("kp ESC", "Esc"),
  ("kp LEFT_CONTROL", "Ctrl"), ("kp LCTRL", "Ctrl"), ("kp RIGHT_CONTROL", "Ctrl"),
  ("kp LEFT_SHIFT", "Shift"), ("kp LSHFT", "Shift"), ("kp RIGHT_SHIFT", "Shift"),
  ("kp LEFT_ALT", "Alt"), ("kp LALT", "Alt"), ("kp RIGHT_ALT", "AltGr"),
  ("kp LGUI", "GUI"), ("kp RGUI", "GUI"),
  ("kp SPACE", "Space"), ("kp BACKSPACE", "Bksp"), ("kp RET", "Enter"), ("kp ENTER", "Enter"),
  ("kp SEMICOLON", ";"), ("kp SEMI", ";"), ("kp SQT", "\x27"), ("kp APOS", "\x27"),
  ("kp COMMA", ","), ("kp DOT", "."), ("kp FSLH", "/"), ("kp SLASH", "/"),
  ("kp BSLH", "\\"), ("kp BACKSLASH", "\\"),
  ("kp LBKT", "["), ("kp RBKT", "]"), ("kp LBRC", "\x7b"), ("kp RBRC", "\x7d"),
  ("kp LPAR", "("), ("kp RPAR", ")"),
  ("kp MINUS", "-"), ("kp EQUAL", "="), ("kp PLUS", "+"), ("kp UNDER", "_"),
  ("kp GRAVE", "`"), ("kp TILDE", "~"),
  ("kp EXCL", "!"), ("kp AT", "@"), ("kp HASH", "#"), ("kp DLLR", "$"),
  ("kp PRCNT", "%"), ("kp CARET", "^"), ("kp AMPS", "&"), ("kp ASTRK", "*"),
  ("kp PIPE", "|"),
  ("kp LEFT", "←"), ("kp RIGHT", "→"), ("kp UP", "↑"), ("kp DOWN", "↓"),
  ("kp HOME", "Home"), ("kp END", "End"), ("kp PG_UP", "PgUp"), ("kp PG_DN", "PgDn"),
  ("bt BT_CLR", "BT Clr"), ("bt BT_SEL 0", "BT 0"), ("bt BT_SEL 1", "BT 1"),
  ("bt BT_SEL 2", "BT 2"), ("bt BT_SEL 3", "BT 3"), ("bt BT_SEL 4", "BT 4"),
  ("sys_reset", "Reset"), ("bootloader", "Boot"),
  ("trans", "▽"), ("none", "✕")]

/-- The stripped form `binding.strip().lstrip("&")` computed on line 55 of
`parse_binding`. -/
def strippedForm (s : String) : String := ⟨dropAmp (pyTrim s.data)⟩

/-- The branch cascade of `parse_binding` (source lines 57-76), applied to the
already-stripped token.  `none` models an uncaught `IndexError` from the
`split()[1]` accesses. -/
def parseCore (b : String) : Option String :=
  if swL "mo " b then ((wsSplit b.data)[1]?).map (fun n => "L" ++ (⟨n⟩ : String))
  else if swL "to " b then ((wsSplit b.data)[1]?).map (fun n => "TO" ++ (⟨n⟩ : String))
  else if swL "lt " b then ((wsSplit b.data)[1]?).map (fun n => "LT" ++ (⟨n⟩ : String))
  else
    match KEY_DISPLAY.lookup b with
    | some v => some v
    | none =>
      if swL "kp " b then some ⟨pyCapitalize (b.data.drop 3)⟩
      else some ⟨b.data.take 6⟩

/-- Embedding of `parse_binding` (source lines 53-76). -/
def parse_binding (s : String) : Option String := parseCore (strippedForm s)

/-- Total wrapper used by the renderer; by `parse_binding` totality (claim
C10) the default is never taken. -/
def parse_binding_label (s : String) : String := (parse_binding s).getD ""

/-! ### Layer extractor: comment stripping and the layer regex

The script removes `//` line comments and `/* ... */` block comments, then
runs `re.findall` with the pattern
`(Layer_\d+|layer_\d+)\s*\{[^\x7b\x7d]*?bindings\s*=\s*<\s*([^>]+)\s*>`
(DOTALL).  The pattern is deterministic except for two places: the lazy star
before `bindings` (expands one non-brace character at a time, re-trying the
tail at each step) and the greedy `\s*` before the capture group (backtracks
from the longest whitespace run).  The functions below implement exactly that
backtracking behaviour. -/

/-- Helper for `re.sub(r'//[^\n]*', '', content)`; the flag is `true` while
inside a line comment (skipping up to, but not including, the newline). -/
def stripLineAux : Bool → List Char → List Char
  | true, [] => []
  | true, c :: cs => if c = '\n' then c :: stripLineAux false cs else stripLineAux true cs
  | false, [] => []
  | false, '/' :: '/' :: rest => stripLineAux true rest
  | false, c :: cs => c :: stripLineAux false cs

/-- Model of `re.sub(r'//[^\n]*', '', content)`: delete from each `//` to the
end of the line. -/
def stripLineComments (l : List Char) : List Char := stripLineAux false l

/-- Scan for the closing `*/`; returns the remainder after it. -/
def dropToClose : List Char → Option (List Char)
  | [] => none
  | [_] => none
  | a :: b :: rest =>
    if a = '*' && b = '/' then some rest else dropToClose (b :: rest)

theorem dropToClose_length_le :
    ∀ l r : List Char, dropToClose l = some r → r.length ≤ l.length := by
  intro l
  induction l with
  | nil => intro r h; simp [dropToClose] at h
  | cons a t ih =>
    intro r h
    cases t with
    | nil => simp [dropToClose] at h
    | cons b rest =>
      simp only [dropToClose] at h
      split at h
      · cases h; simp only [List.length_cons]; omega
      · have := ih r h; simp only [List.length_cons] at this ⊢; omega

/-- Fuelled worker for `stripBlockComments`.  The fuel starts at the input
length and every step consumes at least one character, so the fuel never runs
out (`stripBlockAux_fuel` below). -/
def stripBlockAux : Nat → List Char → List Char
  | 0, l => l
  | _ + 1, [] => []
  | fuel + 1, '/' :: '*' :: rest =>
    (match dropToClose rest with
     | some r => stripBlockAux fuel r
     | none => '/' :: stripBlockAux fuel ('*' :: rest))
  | fuel + 1, c :: cs => c :: stripBlockAux fuel cs

/-- Model of `re.sub(r'/\*.*?\*/', '', content, flags=re.DOTALL)`: delete each block
comment up to the nearest following `*/`; a `/*` with no closing `*/` is
kept. -/
def stripBlockComments (l : List Char) : List Char := stripBlockAux l.length l

/-- The comment-stripping pass of `parse_keymap` (source lines 85-87). -/
def stripComments (l : List Char) : List Char :=
  stripBlockComments (stripLineComments l)

/-- One match of the layer pattern: the group-1 identifier, the text consumed
by the lazy `[^\x7b\x7d]*?` between the opening brace and `bindings`, the
group-2 capture inside the angle brackets, and the remainder of the input. -/
structure LayerMatch where
  name : List Char
  gap : List Char
  capture : List Char
  rest : List Char
deriving DecidableEq

/-- The alternation `Layer_\d+|layer_\d+` at the current position: the matched identifier and
the remainder.  (Both alternatives demand a distinct literal prefix, and the
greedy `\d+` cannot usefully backtrack because the pattern continues with
`\s*\{`, which cannot consume a digit.) -/
def matchName (s : List Char) : Option (List Char × List Char) :=
  if "Layer_".data.isPrefixOf s then
    let r := s.drop 6
    let ds := r.takeWhile Char.isDigit
    if ds.isEmpty then none else some ("Layer_".data ++ ds, r.drop ds.length)
  else if "layer_".data.isPrefixOf s then
    let r := s.drop 6
    let ds := r.takeWhile Char.isDigit
    if ds.isEmpty then none else some ("layer_".data ++ ds, r.drop ds.length)
  else none

/-- Greedy `([^>]+)\s*>` at the current position: the capture is the maximal
run of non-`>` characters, and must be non-empty and followed by `>` (the
trailing `\s*` is necessarily empty because the run is maximal). -/
def matchPlusNonGt (t : List Char) : Option (List Char × List Char) :=
  let run := t.takeWhile (fun c => c ≠ '>')
  if run.isEmpty then none
  else
    match t.drop run.length with
    | '>' :: rest => some (run, rest)
    | _ => none

/-- The greedy `\s*` before the capture group, backtracking from `i` consumed
whitespace characters down to zero. -/
def angleFrom (t : List Char) : Nat → Option (List Char × List Char)
  | 0 => matchPlusNonGt t
  | j + 1 =>
    match matchPlusNonGt (t.drop (j + 1)) with
    | some r => some r
    | none => angleFrom t j

/-- The part `\s*([^>]+)\s*>` of the pattern after `<`. -/
def matchAngle (t : List Char) : Option (List Char × List Char) :=
  angleFrom t (t.takeWhile pyWS).length

/-- The literal `bindings`, then `\s*=\s*<`, then `matchAngle`.  The two inner `\s*` are
deterministic: giving back a whitespace character can never let the following
literal (`=` resp. `<`) match. -/
def matchBindingsTail (s : List Char) : Option (List Char × List Char) :=
  if "bindings".data.isPrefixOf s then
    match (s.drop 8).dropWhile pyWS with
    | '=' :: r2 =>
      match r2.dropWhile pyWS with
      | '<' :: r3 => matchAngle r3
      | _ => none
    | _ => none
  else none

/-- The lazy `[^\x7b\x7d]*?` before `bindings`: first try the tail at the
current position, else consume one character — which must not be a brace —
and retry.  Returns (consumed gap, capture, rest-after-match). -/
def lazyLoop : List Char → Option (List Char × List Char × List Char)
  | [] => none
  | c :: cs =>
    match matchBindingsTail (c :: cs) with
    | some r => some ([], r.1, r.2)
    | none =>
      if c = '\x7b' || c = '\x7d' then none
      else (lazyLoop cs).map (fun r => (c :: r.1, r.2.1, r.2.2))

/-- Attempt the whole layer pattern at the current position. -/
def matchLayerAt (s : List Char) : Option LayerMatch :=
  match matchName s with
  | none => none
  | some (nm, r1) =>
    match r1.dropWhile pyWS with
    | '\x7b' :: r3 => (lazyLoop r3).map (fun r => ⟨nm, r.1, r.2.1, r.2.2⟩)
    | _ => none

/-- Model of `re.findall` scanning: try the pattern at every position, resuming after
the end of each (necessarily non-empty) match.  The fuel starts at the input
length; every step consumes at least one character, so it never runs out. -/
def findAllAux : Nat → List Char → List LayerMatch
  | 0, _ => []
  | _ + 1, [] => []
  | fuel + 1, c :: cs =>
    match matchLayerAt (c :: cs) with
    | some m => m :: findAllAux fuel m.rest
    | none => findAllAux fuel cs

/-- All matches of the layer pattern (with gap and rest information kept). -/
def findAllLayersFull (content : String) : List LayerMatch :=
  let cleaned := stripComments content.data
  findAllAux cleaned.length cleaned

/-- The (group-1, group-2) pairs of
`re.findall(layer_pattern, content_no_comments)` (source lines 91-92). -/
def findAllLayers (content : String) : List (String × String) :=
  (findAllLayersFull content).map (fun m => (⟨m.name⟩, ⟨m.capture⟩))

/-! ### Layer extractor: token splitting, the 36-token filter and sorting -/

/-- Helper for `re.split(r'(?=&)', s)`: each `&` begins a new fragment; `acc`
holds the current fragment reversed. -/
def splitBeforeAmpAux : List Char → List Char → List (List Char)
  | [], acc => [acc.reverse]
  | c :: cs, acc =>
    if c = '&' then acc.reverse :: splitBeforeAmpAux cs [c]
    else splitBeforeAmpAux cs (c :: acc)

/-- The per-match binding tokenisation (source lines 96-99): newlines become
spaces, the string is split before every `&`, fragments are stripped and
empty ones discarded. -/
def tokenize (s : String) : List String :=
  let flat := s.data.map (fun c => if c = '\n' then ' ' else c)
  let raw := splitBeforeAmpAux flat []
  ((raw.map pyTrim).filter (fun t => ¬ t.isEmpty)).map (fun t => (⟨t⟩ : String))

/-- Python dict assignment `d[k] = v`: replace in place if the key exists,
else append. -/
def dictInsert (d : List (String × List String)) (k : String) (v : List String) :
    List (String × List String) :=
  if d.any (fun p => p.1 = k) then
    d.map (fun p => if p.1 = k then (k, v) else p)
  else d ++ [(k, v)]

/-- The extraction loop of `parse_keymap` (source lines 94-103): tokenise each
match and keep it only when it has at least 36 tokens. -/
def buildLayers (ms : List (String × String)) : List (String × List String) :=
  ms.foldl
    (fun d m =>
      let bs := tokenize m.2
      if 36 ≤ bs.length then dictInsert d m.1 bs else d)
    []

/-- Numeric value of a digit run. -/
def digitsVal (l : List Char) : Nat :=
  l.foldl (fun a c => a * 10 + (c.toNat - 48)) 0

/-- Value of `int(re.search(r'\d+', x).group())`: the integer formed by the first run
of digits.  Identifiers produced by the layer pattern always contain digits;
the `0` default for a digit-free string stands in for the `AttributeError`
Python would raise there. -/
def layerNum : List Char → Nat
  | [] => 0
  | c :: cs => if c.isDigit then digitsVal ((c :: cs).takeWhile Char.isDigit) else layerNum cs

/-- Sort key of `parse_keymap` (source line 107). -/
def layerKey (s : String) : Nat := layerNum s.data

/-- Stable insertion into a list sorted ascending by `layerKey`: the new
element goes after existing elements with an equal key, matching Python's
stable `sorted`. -/
def insertByNum (p : String × List String) :
    List (String × List String) → List (String × List String)
  | [] => [p]
  | q :: rest =>
    if layerKey p.1 < layerKey q.1 then p :: q :: rest
    else q :: insertByNum p rest

/-- The sort `sorted(layers.keys(), key=...)` rebuilt as a stable sort of the
association list (source lines 106-108). -/
def sortLayers (l : List (String × List String)) : List (String × List String) :=
  l.foldl (fun acc p => insertByNum p acc) []

/-- Embedding of `parse_keymap` (source lines 79-110): ordered association list from layer
identifier to binding-token list. -/
def parse_keymap (content : String) : List (String × List String) :=
  sortLayers (buildLayers (findAllLayers content))

/-! ### Layout renderer -/

/-- The helper `fmt` inside `format_corne_layer` (source lines 122-123): centre in a
7-character cell. -/
def fmt (key : String) : String := pyCenter 7 key

/-- One row segment `"│".join([fmt(keys[i]) for i in range(lo, hi)])`.  The `getD ""` default
is never taken: the caller always extends `keys` to at least 42 entries and
uses `hi ≤ 42`. -/
def rowCells (keys : List String) (lo hi : Nat) : String :=
  String.intercalate "│" ((List.range (hi - lo)).map (fun i => fmt (keys.getD (lo + i) "")))

def topLine : String :=
  "┌───────┬───────┬───────┬───────┬───────┬───────┐       ┌───────┬───────┬───────┬───────┬───────┬───────┐"

def midLine : String :=
  "├───────┼───────┼───────┼───────┼───────┼───────┤       ├───────┼───────┼───────┼───────┼───────┼───────┤"

def sepLine : String :=
  "└───────┴───────┴───────┼───────┼───────┼───────┤       ├───────┼───────┼───────┼───────┴───────┴───────┘"

def botLine : String :=
  "                        └───────┴───────┴───────┘       └───────┴───────┴───────┘"

def thumbIndent : String := "                        "

/-- Embedding of `format_corne_layer` (source lines 113-159). -/
def format_corne_layer (bindings : List String) (layer_name : String) : String :=
  let keys0 := bindings.map parse_binding_label
  let keys := if keys0.length < 42 then keys0 ++ List.replicate (42 - keys0.length) "" else keys0
  String.intercalate "\n"
    ["### " ++ layer_name,
     "```",
     topLine,
     "│" ++ rowCells keys 0 6 ++ "│       │" ++ rowCells keys 6 12 ++ "│",
     midLine,
     "│" ++ rowCells keys 12 18 ++ "│       │" ++ rowCells keys 18 24 ++ "│",
     midLine,
     "│" ++ rowCells keys 24 30 ++ "│       │" ++ rowCells keys 30 36 ++ "│",
     sepLine,
     thumbIndent ++ "│" ++ rowCells keys 36 39 ++ "│       │" ++ rowCells keys 39 42 ++ "│",
     botLine,
     "```"]

/-- The renderer as §4.3 of the specification words it: the decoded labels
are padded with empty strings to exactly 42 entries when shorter and entries
beyond index 42 are ignored, then the 42 labels are laid out at the
documented positions.  Used as the reference side of the claim-C3 refinement
theorem. -/
def renderCorneSpec (labels : List String) (layer_name : String) : String :=
  let keys := (labels ++ List.replicate 42 "").take 42
  String.intercalate "\n"
    ["### " ++ layer_name,
     "```",
     topLine,
     "│" ++ rowCells keys 0 6 ++ "│       │" ++ rowCells keys 6 12 ++ "│",
     midLine,
     "│" ++ rowCells keys 12 18 ++ "│       │" ++ rowCells keys 18 24 ++ "│",
     midLine,
     "│" ++ rowCells keys 24 30 ++ "│       │" ++ rowCells keys 30 36 ++ "│",
     sepLine,
     thumbIndent ++ "│" ++ rowCells keys 36 39 ++ "│       │" ++ rowCells keys 39 42 ++ "│",
     botLine,
     "```"]

/-! ### Markdown generation, readme splice and the script entry point -/

/-- Model of `Path(p).name`: the final path component. -/
def pathName (p : String) : String :=
  ⟨(p.data.reverse.takeWhile (fun c => c ≠ '/')).reverse⟩

/-- Embedding of `generate_markdown` (source lines 162-179), as a pure function of the
keymap path and the keymap file's contents. -/
def generate_markdown (path : String) (content : String) : String :=
  let nm := pathName path
  let layers := parse_keymap content
  String.intercalate "\n"
    (["## Keymap", "",
      "*Auto-generated from [`" ++ nm ++ "`](config/" ++ nm ++ ")*", "",
      "**Legend:** `▽` = Transparent (uses key from lower layer), `L#` = Momentary layer switch",
      ""]
     ++ (layers.map (fun p => [format_corne_layer p.2 p.1, ""])).flatten)

def startMarker : String := "<!-- KEYMAP_START -->"

def endMarker : String := "<!-- KEYMAP_END -->"

/-- Index of the leftmost occurrence of `sep` in `l` (`str.find`). -/
def findSub (sep : List Char) : List Char → Option Nat
  | [] => if sep.isEmpty then some 0 else none
  | c :: cs => if sep.isPrefixOf (c :: cs) then some 0 else (findSub sep cs).map (· + 1)

/-- Python `sep in s`. -/
def containsSub (sep l : List Char) : Bool := (findSub sep l).isSome

/-- Fuelled worker for `splitOnSub`; fuel starts at `l.length + 1` and every
recursive step consumes at least one character of `l`, so it never runs
out. -/
def splitOnSubAux (sep : List Char) : Nat → List Char → List (List Char)
  | 0, l => [l]
  | fuel + 1, l =>
    match findSub sep l with
    | none => [l]
    | some i => l.take i :: splitOnSubAux sep fuel (l.drop (i + sep.length))

/-- Python `s.split(sep)` for a non-empty separator: split at every
(leftmost, non-overlapping) occurrence. -/
def splitOnSub (sep l : List Char) : List (List Char) :=
  splitOnSubAux sep (l.length + 1) l

/-- The splice of `update_readme` (source lines 190-195) on a file that
exists, as a pure function of the old content; `none` models the fall-through
to the warning (a marker is missing).  `content.split(start)[0]` is the text
before the first start marker and `content.split(end)[1]` is the text between
the first and the second end marker (or to the end of file); the `getD`
defaults are unreachable (`split` is never empty, and under the guard the
end-marker split has at least two parts). -/
def spliceContent (content km : String) : Option String :=
  if containsSub startMarker.data content.data && containsSub endMarker.data content.data then
    let before := (splitOnSub startMarker.data content.data).headD []
    let after := ((splitOnSub endMarker.data content.data).drop 1).headD []
    some ⟨before ++ startMarker.data ++ '\n' :: km.data ++ '\n' :: endMarker.data ++ after⟩
  else none

/-- Embedding of `update_readme` (source lines 182-197).  The argument is the destination
file's contents when it exists; the result is (content written, warning
emitted). -/
def update_readme (dest : Option String) (km : String) : Option String × Bool :=
  match dest with
  | some c =>
    match spliceContent c km with
    | some n => (some n, false)
    | none => (none, true)
  | none => (none, true)

/-- Outcome of one run of the script. -/
structure RunOutcome where
  exitCode : Nat
  written : Option String
  warned : Bool
deriving DecidableEq

/-- The `__main__` block (source lines 200-212).  `argv` includes the script
name; `fs` is the file system as an association list from path to contents.
A missing keymap file raises an uncaught exception, which terminates CPython
with exit status 1; `sys.exit(1)` is the explicit usage failure. -/
def scriptMain (argv : List String) (fs : List (String × String)) : RunOutcome :=
  match argv with
  | [] => ⟨1, none, false⟩
  | [_] => ⟨1, none, false⟩
  | _ :: keymapFile :: rest =>
    match fs.lookup keymapFile with
    | none => ⟨1, none, false⟩
    | some content =>
      let md := generate_markdown keymapFile content
      match rest with
      | [] => ⟨0, none, false⟩
      | dest :: _ =>
        let r := update_readme (fs.lookup dest) md
        ⟨0, r.1, r.2⟩

/-! ### Concrete demonstration layer for the renderer -/

/-- Forty-two demonstration bindings: the 26 letters, the 10 digits, three
transparent and three none bindings. -/
def demoBindings : List String :=
  ["&kp A", "&kp B", "&kp C", "&kp D", "&kp E", "&kp F", "&kp G", "&kp H",
   "&kp I", "&kp J", "&kp K", "&kp L", "&kp M", "&kp N", "&kp O", "&kp P",
   "&kp Q", "&kp R", "&kp S", "&kp T", "&kp U", "&kp V", "&kp W", "&kp X",
   "&kp Y", "&kp Z",
   "&kp N0", "&kp N1", "&kp N2", "&kp N3", "&kp N4", "&kp N5", "&kp N6",
   "&kp N7", "&kp N8", "&kp N9",
   "&trans", "&trans", "&trans", "&none", "&none", "&none"]

/-- The diagram the script produces for `demoBindings` under layer name
`Demo`: letters on rows 1-2 and the left of row 3, digits on the right of
row 3 and nowhere else, thumbs `▽`/`✕`, every cell centred in 7 columns. -/
def demoRendered : String :=
  String.intercalate "\n"
    ["### Demo",
     "```",
     "┌───────┬───────┬───────┬───────┬───────┬───────┐       ┌───────┬───────┬───────┬───────┬───────┬───────┐",
     "│   A   │   B   │   C   │   D   │   E   │   F   │       │   G   │   H   │   I   │   J   │   K   │   L   │",
     "├───────┼───────┼───────┼───────┼───────┼───────┤       ├───────┼───────┼───────┼───────┼───────┼───────┤",
     "│   M   │   N   │   O   │   P   │   Q   │   R   │       │   S   │   T   │   U   │   V   │   W   │   X   │",
     "├───────┼───────┼───────┼───────┼───────┼───────┤       ├───────┼───────┼───────┼───────┼───────┼───────┤",
     "│   Y   │   Z   │   0   │   1   │   2   │   3   │       │   4   │   5   │   6   │   7   │   8   │   9   │",
     "└───────┴───────┴───────┼───────┼───────┼───────┤       ├───────┼───────┼───────┼───────┴───────┴───────┘",
     "                        │   ▽   │   ▽   │   ▽   │       │   ✕   │   ✕   │   ✕   │",
     "                        └───────┴───────┴───────┘       └───────┴───────┴───────┘",
     "```"]

/-! ## Helper lemmas about the Python string primitives -/

theorem pyWS_cases (c : Char) (h : pyWS c = true) :
    c = ' ' ∨ c = '\t' ∨ c = '\n' ∨ c = '\r' ∨ c = '\x0b' ∨ c = '\x0c' := by
  have h2 : (((((c = ' ' ∨ c = '\t') ∨ c = '\n') ∨ c = '\r') ∨ c = '\x0b') ∨ c = '\x0c') := by
    simpa only [pyWS, Bool.or_eq_true, decide_eq_true_eq] using h
  tauto

theorem pyWS_false_of_isDigit (c : Char) (h : c.isDigit = true) : pyWS c = false := by
  cases hw : pyWS c with
  | false => rfl
  | true =>
    rcases pyWS_cases c hw with h1 | h1 | h1 | h1 | h1 | h1 <;>
      (subst h1; exact absurd h (by decide))

theorem head?_dropWhile_not (p : Char → Bool) :
    ∀ (l : List Char) (c : Char), (l.dropWhile p).head? = some c → p c = false := by
  intro l
  induction l with
  | nil => intro c h; simp [List.dropWhile] at h
  | cons a t ih =>
    intro c h
    rw [List.dropWhile_cons] at h
    split at h
    · exact ih c h
    · simp only [List.head?_cons, Option.some.injEq] at h
      subst h
      rename_i hp
      exact Bool.not_eq_true _ ▸ (by simpa using hp)

theorem getLast?_dropWhile_of_ne_nil (p : Char → Bool) :
    ∀ l : List Char, l.dropWhile p ≠ [] → (l.dropWhile p).getLast? = l.getLast? := by
  intro l
  induction l with
  | nil => intro h; simp [List.dropWhile] at h
  | cons a t ih =>
    intro h
    rw [List.dropWhile_cons] at h ⊢
    split
    · rename_i hp
      have ht : t.dropWhile p ≠ [] := by simpa [hp] using h
      have htne : t ≠ [] := by
        intro he; subst he; simp [List.dropWhile] at ht
      rw [ih ht]
      have : (t.getLast?).isSome := by
        rw [List.getLast?_eq_getLast t htne]; rfl
      calc t.getLast? = (t.getLast?).or ([a].getLast?) := by
            cases hgl : t.getLast? with
            | none => rw [hgl] at this; simp at this
            | some x => rfl
        _ = ([a] ++ t).getLast? := by rw [List.getLast?_append]
        _ = (a :: t).getLast? := rfl
    · rfl

theorem pyTrim_getLast_not_ws (l : List Char) (c : Char)
    (h : (pyTrim l).getLast? = some c) : pyWS c = false := by
  unfold pyTrim at h
  set x := ((l.dropWhile pyWS).reverse).dropWhile pyWS with hx
  have hrev : x.reverse.getLast? = x.head? := by
    have := List.head?_reverse x.reverse
    rw [List.reverse_reverse] at this
    exact this.symm
  rw [hrev] at h
  exact head?_dropWhile_not pyWS _ c h

theorem strippedForm_getLast_not_ws (s : String) (c : Char)
    (h : (strippedForm s).data.getLast? = some c) : pyWS c = false := by
  have hdata : (strippedForm s).data = dropAmp (pyTrim s.data) := rfl
  rw [hdata] at h
  have hne : dropAmp (pyTrim s.data) ≠ [] := by
    intro he; rw [he] at h; simp at h
  unfold dropAmp at h hne
  rw [getLast?_dropWhile_of_ne_nil _ _ hne] at h
  exact pyTrim_getLast_not_ws s.data c h

theorem wsSplitAux_nil (acc : List Char) :
    wsSplitAux [] acc = if acc.isEmpty then [] else [acc.reverse] := rfl

theorem wsSplitAux_cons_solid (c : Char) (cs acc : List Char) (hc : pyWS c = false) :
    wsSplitAux (c :: cs) acc = wsSplitAux cs (c :: acc) := by
  rw [wsSplitAux]
  simp [hc]

theorem wsSplitAux_cons_ws (c : Char) (cs acc : List Char) (hc : pyWS c = true)
    (hacc : acc ≠ []) :
    wsSplitAux (c :: cs) acc = acc.reverse :: wsSplitAux cs [] := by
  rw [wsSplitAux]
  simp [hc, hacc]

theorem wsSplitAux_ne_nil :
    ∀ (l acc : List Char), ((∃ c ∈ l, pyWS c = false) ∨ acc ≠ []) →
      wsSplitAux l acc ≠ [] := by
  intro l
  induction l with
  | nil =>
    intro acc h
    rcases h with ⟨c, hc, _⟩ | h
    · simp at hc
    · rw [wsSplitAux_nil, if_neg (by simpa using h)]
      simp
  | cons a t ih =>
    intro acc h
    cases ha : pyWS a with
    | false => rw [wsSplitAux_cons_solid a t acc ha]; exact ih _ (Or.inr (by simp))
    | true =>
      rcases hacc : acc with _ | ⟨x, xs⟩
      · rw [wsSplitAux]
        simp only [ha, if_pos rfl, List.isEmpty_nil, if_pos rfl]
        refine ih [] (Or.inl ?_)
        rcases h with ⟨c, hc, hcw⟩ | hne
        · rcases List.mem_cons.mp hc with rfl | hct
          · rw [ha] at hcw; cases hcw
          · exact ⟨c, hct, hcw⟩
        · exact absurd hacc hne
      · rw [wsSplitAux_cons_ws a t _ ha (by simp)]
        simp

theorem wsSplitAux_all_solid :
    ∀ (l acc : List Char), (∀ c ∈ l, pyWS c = false) → (acc ≠ [] ∨ l ≠ []) →
      wsSplitAux l acc = [acc.reverse ++ l] := by
  intro l
  induction l with
  | nil =>
    intro acc _ h
    rcases h with h | h
    · rw [wsSplitAux_nil, if_neg (by simpa using h)]
      simp
    · simp at h
  | cons a t ih =>
    intro acc hsolid _
    have ha : pyWS a = false := hsolid a (by simp)
    rw [wsSplitAux_cons_solid a t acc ha]
    rw [ih (a :: acc) (fun c hc => hsolid c (by simp [hc])) (Or.inl (by simp))]
    simp

theorem wsSplitAux_solid_sep (w : Char) (hw : pyWS w = true) :
    ∀ (d rest acc : List Char), d ≠ [] → (∀ c ∈ d, pyWS c = false) →
      wsSplitAux (d ++ w :: rest) acc = (acc.reverse ++ d) :: wsSplitAux rest [] := by
  intro d
  induction d with
  | nil => intro rest acc h _; cases h rfl
  | cons a d' ih =>
    intro rest acc _ hsolid
    have ha : pyWS a = false := hsolid a (by simp)
    rw [List.cons_append, wsSplitAux_cons_solid a _ acc ha]
    cases d' with
    | nil =>
      rw [List.nil_append, wsSplitAux_cons_ws w rest _ hw (by simp)]
      simp
    | cons b d'' =>
      rw [ih rest (a :: acc) (by simp) (fun c hc => hsolid c (by simp [hc]))]
      simp

theorem getLast?_append_right (l1 l2 : List Char) (h : l2 ≠ []) :
    (l1 ++ l2).getLast? = l2.getLast? := by
  rw [List.getLast?_append, List.getLast?_eq_getLast l2 h]
  rfl

theorem dropWhile_eq_self_of_head (p : Char → Bool) (l : List Char)
    (h : ∀ c, l.head? = some c → p c = false) : l.dropWhile p = l := by
  cases l with
  | nil => rfl
  | cons a t =>
    rw [List.dropWhile_cons]
    simp [h a rfl]

theorem pyTrim_eq_self (l : List Char)
    (hhead : ∀ c, l.head? = some c → pyWS c = false)
    (hlast : ∀ c, l.getLast? = some c → pyWS c = false) : pyTrim l = l := by
  unfold pyTrim
  rw [dropWhile_eq_self_of_head pyWS l hhead]
  rw [dropWhile_eq_self_of_head pyWS l.reverse
      (fun c hc => hlast c (by rwa [List.head?_reverse] at hc))]
  exact List.reverse_reverse l

theorem strippedForm_eq_self (s : String)
    (hhead : ∀ c, s.data.head? = some c → pyWS c = false ∧ c ≠ '&')
    (hlast : ∀ c, s.data.getLast? = some c → pyWS c = false) :
    strippedForm s = s := by
  unfold strippedForm dropAmp
  rw [pyTrim_eq_self s.data (fun c hc => (hhead c hc).1) hlast]
  rw [dropWhile_eq_self_of_head _ s.data (fun c hc => by simp [(hhead c hc).2])]

theorem swL_false_of_head_ne (p s : String) (c d : Char)
    (hp : p.data.head? = some c) (hs : s.data.head? = some d) (hne : c ≠ d) :
    swL p s = false := by
  unfold swL
  rcases hpd : p.data with _ | ⟨a, as⟩
  · rw [hpd] at hp; simp at hp
  · rcases hsd : s.data with _ | ⟨b, bs⟩
    · rw [hsd] at hs; simp at hs
    · rw [hpd] at hp
      rw [hsd] at hs
      simp only [List.head?_cons, Option.some.injEq] at hp hs
      subst hp; subst hs
      simp [List.isPrefixOf, hne]

theorem wsSplit_cons2_sep (c1 c2 : Char) (h1 : pyWS c1 = false) (h2 : pyWS c2 = false)
    (rest : List Char) :
    wsSplit (c1 :: c2 :: ' ' :: rest) = [c1, c2] :: wsSplitAux rest [] := by
  unfold wsSplit
  rw [show c1 :: c2 :: ' ' :: rest = [c1, c2] ++ ' ' :: rest from rfl]
  rw [wsSplitAux_solid_sep ' ' (by decide) [c1, c2] rest [] (by simp) ?_]
  · simp
  · intro c hc
    rcases List.mem_cons.mp hc with rfl | hc2
    · exact h1
    · simp only [List.mem_singleton] at hc2
      subst hc2; exact h2

theorem get1_wsSplit_isSome (s : String) (c1 c2 : Char) (rest : List Char)
    (h1 : pyWS c1 = false) (h2 : pyWS c2 = false)
    (hdata : (strippedForm s).data = c1 :: c2 :: ' ' :: rest) :
    ((wsSplit (strippedForm s).data)[1]?).isSome = true := by
  have hrest : rest ≠ [] := by
    intro he
    subst he
    have hws := strippedForm_getLast_not_ws s ' ' (by rw [hdata]; rfl)
    exact absurd hws (by decide)
  have hcl : rest.getLast? = some (rest.getLast hrest) := List.getLast?_eq_getLast rest hrest
  have hclw : pyWS (rest.getLast hrest) = false := by
    refine strippedForm_getLast_not_ws s _ ?_
    rw [hdata, show c1 :: c2 :: ' ' :: rest = [c1, c2, ' '] ++ rest from rfl,
        getLast?_append_right _ _ hrest]
    exact hcl
  have hne : wsSplitAux rest [] ≠ [] :=
    wsSplitAux_ne_nil rest [] (Or.inl ⟨rest.getLast hrest, List.getLast_mem hrest, hclw⟩)
  rw [hdata, wsSplit_cons2_sep c1 c2 h1 h2 rest]
  rcases hws : wsSplitAux rest [] with _ | ⟨x, t⟩
  · exact absurd hws hne
  · simp

/-! ## Claim C10: totality of the decoder -/

/-- C10. `parse_binding` is total: it returns a label for every input
string; in particular the `split()[1]` accesses in the `mo`/`to`/`lt`
branches cannot fail, because the stripped token has no trailing whitespace,
so a token starting with `mo ` (resp. `to `, `lt `) has a second
whitespace-separated field. -/
theorem C10_parse_binding_total (s : String) : (parse_binding s).isSome = true := by
  unfold parse_binding parseCore
  by_cases hmo : swL "mo " (strippedForm s) = true
  · rw [if_pos hmo]
    unfold swL at hmo
    rcases List.isPrefixOf_iff_prefix.mp hmo with ⟨rest, hrest⟩
    have hdata : (strippedForm s).data = 'm' :: 'o' :: ' ' :: rest := by rw [← hrest]; rfl
    rw [Option.isSome_map']
    exact get1_wsSplit_isSome s 'm' 'o' rest (by decide) (by decide) hdata
  · rw [if_neg hmo]
    by_cases hto : swL "to " (strippedForm s) = true
    · rw [if_pos hto]
      unfold swL at hto
      rcases List.isPrefixOf_iff_prefix.mp hto with ⟨rest, hrest⟩
      have hdata : (strippedForm s).data = 't' :: 'o' :: ' ' :: rest := by rw [← hrest]; rfl
      rw [Option.isSome_map']
      exact get1_wsSplit_isSome s 't' 'o' rest (by decide) (by decide) hdata
    · rw [if_neg hto]
      by_cases hlt : swL "lt " (strippedForm s) = true
      · rw [if_pos hlt]
        unfold swL at hlt
        rcases List.isPrefixOf_iff_prefix.mp hlt with ⟨rest, hrest⟩
        have hdata : (strippedForm s).data = 'l' :: 't' :: ' ' :: rest := by rw [← hrest]; rfl
        rw [Option.isSome_map']
        exact get1_wsSplit_isSome s 'l' 't' rest (by decide) (by decide) hdata
      · rw [if_neg hlt]
        rcases hlk : KEY_DISPLAY.lookup (strippedForm s) with _ | v
        · simp only [hlk]
          by_cases hkp : swL "kp " (strippedForm s) = true
          · rw [if_pos hkp]; rfl
          · rw [if_neg hkp]; rfl
        · simp only [hlk]; rfl

/-! ## Claims C1, C7, C8: decoder behaviour -/

theorem parse_binding_mo (n : String) (hne : n.data ≠ [])
    (hd : ∀ c ∈ n.data, c.isDigit = true) :
    parse_binding ("mo " ++ n) = some ("L" ++ n) := by
  have hdata : ("mo " ++ n).data = 'm' :: 'o' :: ' ' :: n.data := by
    rw [String.data_append]; rfl
  have hlast : ∀ c, ("mo " ++ n).data.getLast? = some c → pyWS c = false := by
    intro c hc
    rw [hdata, show 'm' :: 'o' :: ' ' :: n.data = ['m', 'o', ' '] ++ n.data from rfl,
        getLast?_append_right _ _ hne, List.getLast?_eq_getLast n.data hne] at hc
    simp only [Option.some.injEq] at hc
    subst hc
    exact pyWS_false_of_isDigit _ (hd _ (List.getLast_mem hne))
  have hstr : strippedForm ("mo " ++ n) = "mo " ++ n := by
    refine strippedForm_eq_self _ ?_ hlast
    intro c hc
    rw [hdata] at hc
    simp only [List.head?_cons, Option.some.injEq] at hc
    subst hc
    exact ⟨by decide, by decide⟩
  have hsw : swL "mo " ("mo " ++ n) = true := by
    unfold swL
    rw [List.isPrefixOf_iff_prefix]
    exact ⟨n.data, (String.data_append "mo " n).symm⟩
  unfold parse_binding
  rw [hstr]
  unfold parseCore
  rw [if_pos hsw]
  rw [hdata, wsSplit_cons2_sep 'm' 'o' (by decide) (by decide) n.data]
  rw [wsSplitAux_all_solid n.data []
      (fun c hc => pyWS_false_of_isDigit c (hd c hc)) (Or.inr hne)]
  simp

theorem parse_binding_to (n : String) (hne : n.data ≠ [])
    (hd : ∀ c ∈ n.data, c.isDigit = true) :
    parse_binding ("to " ++ n) = some ("TO" ++ n) := by
  have hdata : ("to " ++ n).data = 't' :: 'o' :: ' ' :: n.data := by
    rw [String.data_append]; rfl
  have hlast : ∀ c, ("to " ++ n).data.getLast? = some c → pyWS c = false := by
    intro c hc
    rw [hdata, show 't' :: 'o' :: ' ' :: n.data = ['t', 'o', ' '] ++ n.data from rfl,
        getLast?_append_right _ _ hne, List.getLast?_eq_getLast n.data hne] at hc
    simp only [Option.some.injEq] at hc
    subst hc
    exact pyWS_false_of_isDigit _ (hd _ (List.getLast_mem hne))
  have hstr : strippedForm ("to " ++ n) = "to " ++ n := by
    refine strippedForm_eq_self _ ?_ hlast
    intro c hc
    rw [hdata] at hc
    simp only [List.head?_cons, Option.some.injEq] at hc
    subst hc
    exact ⟨by decide, by decide⟩
  have hhead : ("to " ++ n).data.head? = some 't' := by rw [hdata]; rfl
  have hmo : swL "mo " ("to " ++ n) = false :=
    swL_false_of_head_ne "mo " _ 'm' 't' rfl hhead (by decide)
  have hsw : swL "to " ("to " ++ n) = true := by
    unfold swL
    rw [List.isPrefixOf_iff_prefix]
    exact ⟨n.data, (String.data_append "to " n).symm⟩
  unfold parse_binding
  rw [hstr]
  unfold parseCore
  rw [if_neg (by simp [hmo]), if_pos hsw]
  rw [hdata, wsSplit_cons2_sep 't' 'o' (by decide) (by decide) n.data]
  rw [wsSplitAux_all_solid n.data []
      (fun c hc => pyWS_false_of_isDigit c (hd c hc)) (Or.inr hne)]
  simp

theorem parse_binding_lt (n x : String) (hne : n.data ≠ [])
    (hd : ∀ c ∈ n.data, c.isDigit = true)
    (hx : x.data ≠ []) (hxs : ∀ c ∈ x.data, pyWS c = false) :
    parse_binding ("lt " ++ n ++ " " ++ x) = some ("LT" ++ n) := by
  have hdata : ("lt " ++ n ++ " " ++ x).data =
      'l' :: 't' :: ' ' :: (n.data ++ ' ' :: x.data) := by
    rw [String.data_append, String.data_append, String.data_append]
    simp
  have hlast : ∀ c, ("lt " ++ n ++ " " ++ x).data.getLast? = some c → pyWS c = false := by
    intro c hc
    rw [hdata,
        show 'l' :: 't' :: ' ' :: (n.data ++ ' ' :: x.data) =
          (['l', 't', ' '] ++ n.data ++ [' ']) ++ x.data by simp,
        getLast?_append_right _ _ hx, List.getLast?_eq_getLast x.data hx] at hc
    simp only [Option.some.injEq] at hc
    subst hc
    exact hxs _ (List.getLast_mem hx)
  have hstr : strippedForm ("lt " ++ n ++ " " ++ x) = "lt " ++ n ++ " " ++ x := by
    refine strippedForm_eq_self _ ?_ hlast
    intro c hc
    rw [hdata] at hc
    simp only [List.head?_cons, Option.some.injEq] at hc
    subst hc
    exact ⟨by decide, by decide⟩
  have hhead : ("lt " ++ n ++ " " ++ x).data.head? = some 'l' := by rw [hdata]; rfl
  have hmo : swL "mo " ("lt " ++ n ++ " " ++ x) = false :=
    swL_false_of_head_ne "mo " _ 'm' 'l' rfl hhead (by decide)
  have hto : swL "to " ("lt " ++ n ++ " " ++ x) = false :=
    swL_false_of_head_ne "to " _ 't' 'l' rfl hhead (by decide)
  have hsw : swL "lt " ("lt " ++ n ++ " " ++ x) = true := by
    unfold swL
    rw [List.isPrefixOf_iff_prefix]
    refine ⟨n.data ++ ' ' :: x.data, ?_⟩
    rw [hdata]
    rfl
  unfold parse_binding
  rw [hstr]
  unfold parseCore
  rw [if_neg (by simp [hmo]), if_neg (by simp [hto]), if_pos hsw]
  rw [hdata, wsSplit_cons2_sep 'l' 't' (by decide) (by decide) _]
  rw [wsSplitAux_solid_sep ' ' (by decide) n.data x.data [] hne
      (fun c hc => pyWS_false_of_isDigit c (hd c hc))]
  simp

set_option maxRecDepth 4000 in
theorem parseCore_table : ∀ p ∈ KEY_DISPLAY, parseCore p.1 = some p.2 := by decide

/-- C1. Every raw token whose stripped form is a key of `KEY_DISPLAY`
decodes to exactly the table's label; every `mo N` / `to N` token (N a
number) decodes to `L`+N / `TO`+N, and `lt N X` to `LT`+N; and the
`mo`/`to`/`lt` prefix checks take precedence over the table lookup (a token
whose stripped form starts with one of the prefixes is decoded by that
branch, unconditionally). -/
theorem C1_decoder_table_and_layer_labels :
    (∀ p ∈ KEY_DISPLAY, ∀ raw : String, strippedForm raw = p.1 →
        parse_binding raw = some p.2) ∧
    (∀ n : String, n.data ≠ [] → (∀ c ∈ n.data, c.isDigit = true) →
        parse_binding ("mo " ++ n) = some ("L" ++ n) ∧
        parse_binding ("to " ++ n) = some ("TO" ++ n) ∧
        (∀ x : String, x.data ≠ [] → (∀ c ∈ x.data, pyWS c = false) →
          parse_binding ("lt " ++ n ++ " " ++ x) = some ("LT" ++ n))) ∧
    (∀ s : String, swL "mo " (strippedForm s) = true →
        parse_binding s =
          ((wsSplit (strippedForm s).data)[1]?).map (fun m => "L" ++ (⟨m⟩ : String))) ∧
    (∀ s : String, swL "to " (strippedForm s) = true →
        parse_binding s =
          ((wsSplit (strippedForm s).data)[1]?).map (fun m => "TO" ++ (⟨m⟩ : String))) ∧
    (∀ s : String, swL "lt " (strippedForm s) = true →
        parse_binding s =
          ((wsSplit (strippedForm s).data)[1]?).map (fun m => "LT" ++ (⟨m⟩ : String))) := by
  refine ⟨?_, ?_, ?_, ?_, ?_⟩
  · intro p hp raw hraw
    unfold parse_binding
    rw [hraw]
    exact parseCore_table p hp
  · intro n hne hd
    exact ⟨parse_binding_mo n hne hd, parse_binding_to n hne hd,
      fun x hx hxs => parse_binding_lt n x hne hd hx hxs⟩
  · intro s h
    unfold parse_binding parseCore
    rw [if_pos h]
  · intro s h
    have hhead : (strippedForm s).data.head? = some 't' := by
      have h2 := h
      unfold swL at h2
      rcases List.isPrefixOf_iff_prefix.mp h2 with ⟨t, ht⟩
      rw [← ht]; rfl
    have hmo : swL "mo " (strippedForm s) = false :=
      swL_false_of_head_ne "mo " _ 'm' 't' rfl hhead (by decide)
    unfold parse_binding parseCore
    rw [if_neg (by simp [hmo]), if_pos h]
  · intro s h
    have hhead : (strippedForm s).data.head? = some 'l' := by
      have h2 := h
      unfold swL at h2
      rcases List.isPrefixOf_iff_prefix.mp h2 with ⟨t, ht⟩
      rw [← ht]; rfl
    have hmo : swL "mo " (strippedForm s) = false :=
      swL_false_of_head_ne "mo " _ 'm' 'l' rfl hhead (by decide)
    have hto : swL "to " (strippedForm s) = false :=
      swL_false_of_head_ne "to " _ 't' 'l' rfl hhead (by decide)
    unfold parse_binding parseCore
    rw [if_neg (by simp [hmo]), if_neg (by simp [hto]), if_pos h]

theorem C1_witness :
    parse_binding "&kp A" = some "A" ∧ parse_binding ("mo " ++ "3") = some ("L" ++ "3") ∧
    parse_binding ("to " ++ "0") = some ("TO" ++ "0") ∧
    parse_binding ("lt " ++ "2" ++ " " ++ "SPACE") = some ("LT" ++ "2") :=
  ⟨C1_decoder_table_and_layer_labels.1 ("kp A", "A") (by decide) "&kp A" (by decide),
   (C1_decoder_table_and_layer_labels.2.1 "3" (by decide) (by decide)).1,
   (C1_decoder_table_and_layer_labels.2.1 "0" (by decide) (by decide)).2.1,
   (C1_decoder_table_and_layer_labels.2.1 "2" (by decide) (by decide)).2.2 "SPACE"
     (by decide) (by decide)⟩

/-- C7 counterexample. `lstrip("&")` removes *every* leading ampersand,
not a single one: `"&&customaction123"` strips to `"customaction123"` and
decodes to `"custom"`, not to the first six characters `"&custo"` of the
single-`&`-stripped remainder. -/
theorem C7_counterexample :
    strippedForm "&&customaction123" = "customaction123" ∧
    parse_binding "&&customaction123" = some "custom" ∧
    ("custom" : String) ≠ "&custo" :=
  ⟨by decide, by decide, by decide⟩

/-- C7 (amended). The decoder strips surrounding whitespace and then
*all* leading `&` characters; when the remainder matches no `mo`/`to`/`lt`
prefix, no table key and no `kp ` prefix, the label is the first six
characters of the remainder. -/
theorem C7_fallback_truncation (s : String)
    (hmo : swL "mo " (strippedForm s) = false)
    (hto : swL "to " (strippedForm s) = false)
    (hlt : swL "lt " (strippedForm s) = false)
    (htab : KEY_DISPLAY.lookup (strippedForm s) = none)
    (hkp : swL "kp " (strippedForm s) = false) :
    parse_binding s = some ⟨(strippedForm s).data.take 6⟩ := by
  unfold parse_binding parseCore
  rw [if_neg (by simp [hmo]), if_neg (by simp [hto]), if_neg (by simp [hlt])]
  simp only [htab]
  rw [if_neg (by simp [hkp])]

theorem C7_witness : parse_binding "&&customaction123" = some "custom" :=
  C7_fallback_truncation "&&customaction123" (by decide) (by decide) (by decide)
    (by decide) (by decide)

/-- C8 counterexample. Python `capitalize()` upper-cases the *first
character*, not the first alphabetic character: `"kp 1AB"` decodes to
`"1ab"`, not `"1Ab"`. -/
theorem C8_counterexample :
    parse_binding "kp 1AB" = some "1ab" ∧ ("1ab" : String) ≠ "1Ab" :=
  ⟨by decide, by decide⟩

/-- C8 (amended). For a stripped token starting with `kp ` that is not a
table key, the label is the remainder with its first character upper-cased
(left unchanged when not a cased letter) and all following characters
lower-cased. -/
theorem C8_kp_capitalize (s : String)
    (hkp : swL "kp " (strippedForm s) = true)
    (htab : KEY_DISPLAY.lookup (strippedForm s) = none) :
    parse_binding s = some ⟨pyCapitalize ((strippedForm s).data.drop 3)⟩ := by
  have hhead : (strippedForm s).data.head? = some 'k' := by
    have h2 := hkp
    unfold swL at h2
    rcases List.isPrefixOf_iff_prefix.mp h2 with ⟨t, ht⟩
    rw [← ht]; rfl
  unfold parse_binding parseCore
  rw [if_neg (by simp [swL_false_of_head_ne "mo " _ 'm' 'k' rfl hhead (by decide)])]
  rw [if_neg (by simp [swL_false_of_head_ne "to " _ 't' 'k' rfl hhead (by decide)])]
  rw [if_neg (by simp [swL_false_of_head_ne "lt " _ 'l' 'k' rfl hhead (by decide)])]
  simp only [htab]
  rw [if_pos hkp]

theorem C8_witness : parse_binding "&kp FOO" = some "Foo" :=
  C8_kp_capitalize "&kp FOO" (by decide) (by decide)

/-! ## Claim C2: the extractor keeps only ≥36-token layers, sorted by number -/

theorem mem_dictInsert (d : List (String × List String)) (k : String) (v : List String)
    (p : String × List String) (hp : p ∈ dictInsert d k v) : p ∈ d ∨ p = (k, v) := by
  unfold dictInsert at hp
  split at hp
  · rcases List.mem_map.mp hp with ⟨q, hq, hfq⟩
    split at hfq
    · right; exact hfq.symm
    · left; rw [← hfq]; exact hq
  · rcases List.mem_append.mp hp with h | h
    · left; exact h
    · right; simpa using h

theorem buildLayers_min36 :
    ∀ (ms : List (String × String)) (d : List (String × List String)),
      (∀ p ∈ d, 36 ≤ p.2.length) →
      ∀ p ∈ ms.foldl
        (fun d m =>
          let bs := tokenize m.2
          if 36 ≤ bs.length then dictInsert d m.1 bs else d) d,
        36 ≤ p.2.length := by
  intro ms
  induction ms with
  | nil => intro d hd p hp; exact hd p hp
  | cons m t ih =>
    intro d hd p hp
    rw [List.foldl_cons] at hp
    refine ih _ ?_ p hp
    intro q hq
    dsimp only at hq
    split at hq
    · rename_i h36
      rcases mem_dictInsert _ _ _ q hq with h | h
      · exact hd q h
      · rw [h]; exact h36
    · exact hd q hq

theorem mem_insertByNum (p q : String × List String) :
    ∀ l, q ∈ insertByNum p l → q = p ∨ q ∈ l := by
  intro l
  induction l with
  | nil =>
    intro h
    unfold insertByNum at h
    left; simpa using h
  | cons r t ih =>
    intro h
    unfold insertByNum at h
    split at h
    · rcases List.mem_cons.mp h with h1 | h1
      · left; exact h1
      · right; exact h1
    · rcases List.mem_cons.mp h with h1 | h1
      · right; simp [h1]
      · rcases ih h1 with h2 | h2
        · left; exact h2
        · right; simp [h2]

/-- The order the extractor sorts by: ascending value of the first digit run
in the layer identifier. -/
def keyLE (a b : String × List String) : Prop := layerKey a.1 ≤ layerKey b.1

theorem pairwise_insertByNum (p : String × List String) :
    ∀ l, l.Pairwise keyLE → (insertByNum p l).Pairwise keyLE := by
  intro l
  induction l with
  | nil => intro _; simp [insertByNum]
  | cons q t ih =>
    intro hp
    rcases List.pairwise_cons.mp hp with ⟨hq, ht⟩
    unfold insertByNum
    split
    · rename_i hlt
      refine List.pairwise_cons.mpr ⟨?_, hp⟩
      intro r hr
      rcases List.mem_cons.mp hr with rfl | hrt
      · exact le_of_lt hlt
      · exact le_trans (le_of_lt hlt) (hq r hrt)
    · rename_i hnlt
      refine List.pairwise_cons.mpr ⟨?_, ih ht⟩
      intro r hr
      rcases mem_insertByNum p r t hr with rfl | hrt
      · exact Nat.le_of_not_lt hnlt
      · exact hq r hrt

theorem sortLayers_sorted :
    ∀ (l acc : List (String × List String)), acc.Pairwise keyLE →
      (l.foldl (fun acc p => insertByNum p acc) acc).Pairwise keyLE := by
  intro l
  induction l with
  | nil => intro acc h; exact h
  | cons p t ih =>
    intro acc h
    rw [List.foldl_cons]
    exact ih _ (pairwise_insertByNum p acc h)

theorem mem_sortLayers :
    ∀ (l acc : List (String × List String)), ∀ q ∈ l.foldl (fun acc p => insertByNum p acc) acc,
      q ∈ acc ∨ q ∈ l := by
  intro l
  induction l with
  | nil => intro acc q h; left; exact h
  | cons p t ih =>
    intro acc q h
    rw [List.foldl_cons] at h
    rcases ih _ q h with h1 | h1
    · rcases mem_insertByNum p q acc h1 with h2 | h2
      · right; simp [h2]
      · left; exact h2
    · right; simp [h1]

/-- C2. For every input text, `parse_keymap` returns only layers with at
least 36 binding tokens, and the returned layers are in ascending order of
the integer formed by the first digit run of the identifier. -/
theorem C2_extractor_filter_and_sort (content : String) :
    (∀ p ∈ parse_keymap content, 36 ≤ p.2.length) ∧
    (parse_keymap content).Pairwise keyLE := by
  constructor
  · intro p hp
    unfold parse_keymap sortLayers at hp
    rcases mem_sortLayers _ [] p hp with h | h
    · simp at h
    · unfold buildLayers at h
      exact buildLayers_min36 _ [] (by simp) p h
  · unfold parse_keymap sortLayers
    exact sortLayers_sorted _ [] List.Pairwise.nil

/-- A two-block keymap: `layer_2` with 42 transparent bindings (kept) and
`layer_1` with a single binding (dropped). -/
def demoKeymap : String :=
  "layer_2 \x7b bindings = < " ++ String.intercalate " " (List.replicate 42 "&trans") ++
    " > \x7d layer_1 \x7b bindings = <&a> \x7d"

set_option maxRecDepth 10000 in
theorem C2_witness :
    (("layer_2", List.replicate 42 ("&trans" : String)) ∈ parse_keymap demoKeymap) ∧
    36 ≤ (List.replicate 42 ("&trans" : String)).length :=
  ⟨by decide,
   (C2_extractor_filter_and_sort demoKeymap).1 ("layer_2", List.replicate 42 "&trans")
     (by decide)⟩

/-! ## Claim C3: the renderer pads/truncates to 42 and fixes the layout -/

theorem rowCells_congr (keys keys2 : List String) (lo hi : Nat)
    (h : ∀ j, lo ≤ j → j < hi → keys.getD j "" = keys2.getD j "") :
    rowCells keys lo hi = rowCells keys2 lo hi := by
  unfold rowCells
  congr 1
  refine List.map_congr_left ?_
  intro a ha
  have halt : a < hi - lo := List.mem_range.mp ha
  exact congrArg fmt (h (lo + a) (Nat.le_add_right lo a) (by omega))

theorem pad42_of_le (l : List String) (h : l.length ≤ 42) :
    (l ++ List.replicate 42 "").take 42 = l ++ List.replicate (42 - l.length) "" := by
  rw [List.take_append_eq_append_take, List.take_of_length_le h, List.take_replicate,
      Nat.min_eq_left (Nat.sub_le 42 _)]

theorem getD_take_of_lt (l : List String) (j n : Nat) (h : j < n) :
    (l.take n).getD j "" = l.getD j "" := by
  rw [List.getD_eq_getElem?_getD, List.getD_eq_getElem?_getD, List.getElem?_take, if_pos h]

/-- C3. `format_corne_layer` decodes the bindings in order, pads the
label list with empty strings to exactly 42 entries when shorter, ignores
entries from index 42 on, and places the labels at the documented positions
with each cell centred in a fixed 7-character column between the documented
dividers: it coincides with the specification-side renderer
`renderCorneSpec` on the decoded labels, and reproduces the reference
diagram exactly on a concrete 42-binding layer. -/
theorem C3_renderer_pad_truncate_layout :
    (∀ (bindings : List String) (layer_name : String),
        format_corne_layer bindings layer_name =
          renderCorneSpec (bindings.map parse_binding_label) layer_name) ∧
    format_corne_layer demoBindings "Demo" = demoRendered := by
  constructor
  · intro bindings layer_name
    unfold format_corne_layer renderCorneSpec
    dsimp only
    by_cases hlen : (bindings.map parse_binding_label).length < 42
    · rw [if_pos hlen, pad42_of_le _ (Nat.le_of_lt hlen)]
    · rw [if_neg hlen]
      have h42 : (42 : Nat) ≤ (bindings.map parse_binding_label).length := Nat.le_of_not_lt hlen
      have hsp : ((bindings.map parse_binding_label) ++ List.replicate 42 "").take 42 =
          (bindings.map parse_binding_label).take 42 := by
        rw [List.take_append_eq_append_take, Nat.sub_eq_zero_of_le h42]
        simp
      rw [hsp]
      have hpt : ∀ lo hi, hi ≤ 42 →
          rowCells (bindings.map parse_binding_label) lo hi =
            rowCells ((bindings.map parse_binding_label).take 42) lo hi := by
        intro lo hi hhi
        refine rowCells_congr _ _ lo hi ?_
        intro j _ hj
        rw [getD_take_of_lt _ j 42 (by omega)]
      rw [hpt 0 6 (by omega), hpt 6 12 (by omega), hpt 12 18 (by omega),
          hpt 18 24 (by omega), hpt 24 30 (by omega), hpt 30 36 (by omega),
          hpt 36 39 (by omega), hpt 39 42 (by omega)]
  · exact (by set_option maxRecDepth 10000 in decide)

/-! ## Claim C9: brace boundaries and the layer pattern -/

theorem lazyLoop_gap_no_brace :
    ∀ (s gap cap rest : List Char), lazyLoop s = some (gap, cap, rest) →
      ∀ c ∈ gap, c ≠ '\x7b' ∧ c ≠ '\x7d' := by
  intro s
  induction s with
  | nil => intro gap cap rest h; simp [lazyLoop] at h
  | cons a t ih =>
    intro gap cap rest h
    rw [lazyLoop] at h
    rcases hmb : matchBindingsTail (a :: t) with _ | r
    · rw [hmb] at h
      simp only at h
      split at h
      · cases h
      · rename_i hbr
        have hbr2 : a ≠ '\x7b' ∧ a ≠ '\x7d' := by
          constructor <;> (intro he; subst he; simp at hbr)
        rcases hll : lazyLoop t with _ | r2
        · rw [hll] at h; cases h
        · rw [hll] at h
          simp only [Option.map_some'] at h
          cases h
          intro c hc
          rcases List.mem_cons.mp hc with rfl | hct
          · exact hbr2
          · exact ih r2.1 r2.2.1 r2.2.2 (by rw [hll]) c hct
    · rw [hmb] at h
      simp only at h
      cases h
      intro c hc
      simp at hc

theorem matchLayerAt_gap_no_brace (s : List Char) (m : LayerMatch)
    (h : matchLayerAt s = some m) : ∀ c ∈ m.gap, c ≠ '\x7b' ∧ c ≠ '\x7d' := by
  unfold matchLayerAt at h
  rcases hn : matchName s with _ | p
  · rw [hn] at h; cases h
  · rw [hn] at h
    simp only at h
    split at h
    · rcases hll : lazyLoop _ with _ | r
      · rw [hll] at h; cases h
      · rw [hll] at h
        simp only [Option.map_some'] at h
        cases h
        exact lazyLoop_gap_no_brace _ r.1 r.2.1 r.2.2 hll
    · cases h

theorem findAllAux_from_match :
    ∀ (fuel : Nat) (l : List Char) (m : LayerMatch), m ∈ findAllAux fuel l →
      ∃ s, matchLayerAt s = some m := by
  intro fuel
  induction fuel with
  | zero => intro l m h; simp [findAllAux] at h
  | succ f ih =>
    intro l m h
    cases l with
    | nil => simp [findAllAux] at h
    | cons c cs =>
      rw [findAllAux] at h
      rcases hm : matchLayerAt (c :: cs) with _ | m0
      · rw [hm] at h; exact ih cs m h
      · rw [hm] at h
        rcases List.mem_cons.mp h with rfl | h2
        · exact ⟨c :: cs, hm⟩
        · exact ih m0.rest m h2

/-- C9 counterexample. The angle-bracket capture group `[^>]+` may cross
a brace boundary: on `layer_1 { bindings = < &a } &b >` the extractor pairs
`layer_1` with the captured text `&a } &b `, which contains `}`. -/
theorem C9_counterexample :
    ¬ (∀ content : String, ∀ p ∈ findAllLayers content,
        ∀ c ∈ p.2.data, c ≠ '\x7b' ∧ c ≠ '\x7d') := by
  intro h
  have h2 := h "layer_1 \x7b bindings = < &a \x7d &b >" ("layer_1", "&a \x7d &b ")
    (by decide)
  exact (h2 '\x7d' (by decide)).2 rfl

/-- C9 (amended). The identifier is paired with a `bindings` keyword from
the same brace-delimited block: the text the lazy `[^\x7b\x7d]*?` consumes
between the identifier's opening brace and the matched `bindings` keyword
never contains `\x7b` or `\x7d`.  (The captured text inside the angle
brackets, by contrast, may cross brace boundaries, as the counterexample
shows.) -/
theorem C9_gap_within_block (content : String) (m : LayerMatch)
    (h : m ∈ findAllLayersFull content) :
    ∀ c ∈ m.gap, c ≠ '\x7b' ∧ c ≠ '\x7d' := by
  unfold findAllLayersFull at h
  rcases findAllAux_from_match _ _ m h with ⟨s, hs⟩
  exact matchLayerAt_gap_no_brace s m hs

theorem C9_witness :
    ((⟨"layer_1".data, [' '], "&a".data, []⟩ : LayerMatch) ∈
      findAllLayersFull "layer_1 \x7b bindings = <&a>") ∧
    (' ' ≠ '\x7b' ∧ ' ' ≠ '\x7d') :=
  ⟨by decide,
   C9_gap_within_block "layer_1 \x7b bindings = <&a>" ⟨"layer_1".data, [' '], "&a".data, []⟩
     (by decide) ' ' (by decide)⟩

/-! ## Claims C4, C5: the readme splice

Specification lemmas for `findSub` and `splitOnSub`. -/

theorem findSub_sound (sep : List Char) (hsep : sep ≠ []) :
    ∀ (l : List Char) (i : Nat), findSub sep l = some i →
      sep.isPrefixOf (l.drop i) = true ∧ ∀ j, j < i → sep.isPrefixOf (l.drop j) = false := by
  intro l
  induction l with
  | nil =>
    intro i h
    unfold findSub at h
    rw [if_neg (by simpa using hsep)] at h
    cases h
  | cons c cs ih =>
    intro i h
    rw [findSub] at h
    split at h
    · rename_i hp
      cases h
      exact ⟨by simpa using hp, fun j hj => absurd hj (Nat.not_lt_zero j)⟩
    · rename_i hp
      rcases hfs : findSub sep cs with _ | i0
      · rw [hfs] at h; cases h
      · rw [hfs] at h
        simp only [Option.map_some'] at h
        cases h
        rcases ih i0 hfs with ⟨ha, hmin⟩
        refine ⟨by simpa using ha, ?_⟩
        intro j hj
        cases j with
        | zero =>
          simp only [List.drop_zero]
          exact Bool.not_eq_true _ ▸ (by simpa using hp)
        | succ j0 => simpa using hmin j0 (by omega)

theorem findSub_complete (sep : List Char) :
    ∀ (l : List Char) (i : Nat), sep.isPrefixOf (l.drop i) = true →
      (∀ j, j < i → sep.isPrefixOf (l.drop j) = false) → findSub sep l = some i := by
  intro l
  induction l with
  | nil =>
    intro i hp hmin
    rw [List.drop_nil] at hp
    have hsep : sep.isEmpty = true := by
      cases sep with
      | nil => rfl
      | cons a t => simp [List.isPrefixOf] at hp
    unfold findSub
    rw [if_pos hsep]
    cases i with
    | zero => rfl
    | succ i0 =>
      have h0 := hmin 0 (by omega)
      rw [List.drop_nil] at h0
      rw [h0] at hp
      cases hp
  | cons c cs ih =>
    intro i hp hmin
    rw [findSub]
    cases i with
    | zero => rw [if_pos (by simpa using hp)]
    | succ i0 =>
      have h0 : sep.isPrefixOf (c :: cs) = false := by simpa using hmin 0 (by omega)
      rw [if_neg (by simp [h0])]
      rw [ih i0 (by simpa using hp) (fun j hj => by simpa using hmin (j + 1) (by omega))]
      rfl

theorem findSub_ne_nil (sep l : List Char) (hsep : sep ≠ []) (i : Nat)
    (h : findSub sep l = some i) : l ≠ [] := by
  intro he
  subst he
  unfold findSub at h
  rw [if_neg (by simpa using hsep)] at h
  cases h

theorem splitOnSubAux_congr_fuel (sep : List Char) (hsep : sep ≠ []) :
    ∀ (n : Nat) (l : List Char) (f1 f2 : Nat), l.length ≤ n → l.length < f1 →
      l.length < f2 → splitOnSubAux sep f1 l = splitOnSubAux sep f2 l := by
  intro n
  induction n with
  | zero =>
    intro l f1 f2 hn h1 h2
    have hl : l = [] := List.length_eq_zero.mp (Nat.le_antisymm hn (Nat.zero_le _))
    subst hl
    obtain ⟨a, rfl⟩ : ∃ a, f1 = a + 1 := ⟨f1 - 1, by omega⟩
    obtain ⟨b, rfl⟩ : ∃ b, f2 = b + 1 := ⟨f2 - 1, by omega⟩
    rw [splitOnSubAux, splitOnSubAux]
    have hfs : findSub sep [] = none := by
      unfold findSub; rw [if_neg (by simpa using hsep)]
    simp only [hfs]
  | succ n ih =>
    intro l f1 f2 hn h1 h2
    obtain ⟨a, rfl⟩ : ∃ a, f1 = a + 1 := ⟨f1 - 1, by omega⟩
    obtain ⟨b, rfl⟩ : ∃ b, f2 = b + 1 := ⟨f2 - 1, by omega⟩
    rw [splitOnSubAux, splitOnSubAux]
    rcases hfs : findSub sep l with _ | i
    · simp only [hfs]
    · simp only [hfs]
      congr 1
      have hlne : l ≠ [] := findSub_ne_nil sep l hsep i hfs
      have hlpos : 0 < l.length := List.length_pos.mpr hlne
      have hspos : 0 < sep.length := List.length_pos.mpr hsep
      have hdl : (l.drop (i + sep.length)).length = l.length - (i + sep.length) :=
        List.length_drop _ _
      exact ih (l.drop (i + sep.length)) a b (by omega) (by omega) (by omega)

theorem splitOnSub_none (sep l : List Char) (h : findSub sep l = none) :
    splitOnSub sep l = [l] := by
  unfold splitOnSub
  rw [splitOnSubAux]
  simp only [h]

theorem splitOnSub_some (sep l : List Char) (hsep : sep ≠ []) (i : Nat)
    (h : findSub sep l = some i) :
    splitOnSub sep l = l.take i :: splitOnSub sep (l.drop (i + sep.length)) := by
  unfold splitOnSub
  rw [splitOnSubAux]
  simp only [h]
  congr 1
  have hlne : l ≠ [] := findSub_ne_nil sep l hsep i h
  have hlpos : 0 < l.length := List.length_pos.mpr hlne
  have hspos : 0 < sep.length := List.length_pos.mpr hsep
  have hdl : (l.drop (i + sep.length)).length = l.length - (i + sep.length) :=
    List.length_drop _ _
  exact splitOnSubAux_congr_fuel sep hsep (l.drop (i + sep.length)).length _ _ _
    le_rfl (by omega) (by omega)

theorem isPrefixOf_append_of_le :
    ∀ (p x v : List Char), p.length ≤ x.length → p.isPrefixOf (x ++ v) = p.isPrefixOf x := by
  intro p
  induction p with
  | nil => intro x v _; simp [List.isPrefixOf]
  | cons a p' ih =>
    intro x v h
    cases x with
    | nil => simp at h
    | cons b x' =>
      simp only [List.cons_append, List.isPrefixOf_cons₂_self]
      show (a == b && p'.isPrefixOf (x' ++ v)) = (a == b && p'.isPrefixOf x')
      rw [ih x' v (by simpa using h)]

/-- Occurrence checks inside a shared prefix do not depend on the tail. -/
theorem isPrefixOf_drop_congr (p u v w : List Char) (j : Nat)
    (h : j + p.length ≤ u.length) :
    p.isPrefixOf ((u ++ v).drop j) = p.isPrefixOf ((u ++ w).drop j) := by
  have hdropv : (u ++ v).drop j = u.drop j ++ v := by
    rw [List.drop_append_eq_append_drop, Nat.sub_eq_zero_of_le (by omega), List.drop_zero]
  have hdropw : (u ++ w).drop j = u.drop j ++ w := by
    rw [List.drop_append_eq_append_drop, Nat.sub_eq_zero_of_le (by omega), List.drop_zero]
  have hlen : p.length ≤ (u.drop j).length := by
    rw [List.length_drop]; omega
  rw [hdropv, hdropw, isPrefixOf_append_of_le p _ v hlen, isPrefixOf_append_of_le p _ w hlen]

theorem isPrefixOf_self_append (p z : List Char) : p.isPrefixOf (p ++ z) = true :=
  List.isPrefixOf_iff_prefix.mpr ⟨z, rfl⟩

/-- The splice on a well-formed file: content decomposed as
`A ++ start ++ mid ++ end ++ post`, with the first start-marker occurrence at
the boundary of `A`, the first end-marker occurrence at the boundary of
`A ++ start ++ mid`, and no further end marker in `post`. -/
theorem spliceContent_canonical (A mid post km : String)
    (h1 : findSub startMarker.data (A ++ startMarker ++ mid ++ endMarker ++ post).data
            = some A.data.length)
    (h2 : findSub endMarker.data (A ++ startMarker ++ mid ++ endMarker ++ post).data
            = some (A ++ startMarker ++ mid).data.length)
    (h3 : findSub endMarker.data post.data = none) :
    spliceContent (A ++ startMarker ++ mid ++ endMarker ++ post) km
      = some (A ++ startMarker ++ "\n" ++ km ++ "\n" ++ endMarker ++ post) := by
  have hSne : startMarker.data ≠ [] := by decide
  have hEne : endMarker.data ≠ [] := by decide
  unfold spliceContent
  have hcond : (containsSub startMarker.data (A ++ startMarker ++ mid ++ endMarker ++ post).data
      && containsSub endMarker.data (A ++ startMarker ++ mid ++ endMarker ++ post).data)
      = true := by
    unfold containsSub
    rw [h1, h2]
    rfl
  rw [if_pos hcond]
  have hg1 : (A ++ startMarker ++ mid ++ endMarker ++ post).data
      = A.data ++ (startMarker.data ++ (mid.data ++ (endMarker.data ++ post.data))) := by
    simp [String.data_append]
  have hg3 : (A ++ startMarker ++ mid ++ endMarker ++ post).data
      = ((A ++ startMarker ++ mid).data ++ endMarker.data) ++ post.data := by
    simp [String.data_append]
  have hbefore : (splitOnSub startMarker.data
      (A ++ startMarker ++ mid ++ endMarker ++ post).data).headD [] = A.data := by
    rw [splitOnSub_some _ _ hSne _ h1]
    simp only [List.headD_cons]
    rw [hg1]
    exact List.take_left' rfl
  have hdropEq : (A ++ startMarker ++ mid ++ endMarker ++ post).data.drop
      ((A ++ startMarker ++ mid).data.length + endMarker.data.length) = post.data := by
    rw [hg3]
    exact List.drop_left' (by rw [List.length_append])
  have hafter : ((splitOnSub endMarker.data
      (A ++ startMarker ++ mid ++ endMarker ++ post).data).drop 1).headD [] = post.data := by
    rw [splitOnSub_some _ _ hEne _ h2, hdropEq, splitOnSub_none _ _ h3]
    simp
  rw [hbefore, hafter]
  refine congrArg some (String.ext ?_)
  show A.data ++ startMarker.data ++ '\n' :: km.data ++ '\n' :: endMarker.data ++ post.data
      = (A ++ startMarker ++ "\n" ++ km ++ "\n" ++ endMarker ++ post).data
  have hnl : ("\n" : String).data = ['\n'] := rfl
  simp [String.data_append, hnl, List.append_assoc]

/-- C4 counterexample. With a second end marker in the file, the text
after it is dropped: `content.split(end_marker)[1]` keeps only the segment
between the first and the second occurrence, so the character `Z` after the
(second) end marker does not survive the splice. -/
theorem C4_counterexample :
    spliceContent
        ("A" ++ startMarker ++ "B" ++ endMarker ++ "C" ++ endMarker ++ "Z") "K"
      = some ("A" ++ startMarker ++ "\nK\n" ++ endMarker ++ "C") ∧
    ('Z' ∈ ("A" ++ startMarker ++ "B" ++ endMarker ++ "C" ++ endMarker ++ "Z").data) ∧
    ¬ ('Z' ∈ ("A" ++ startMarker ++ "\nK\n" ++ endMarker ++ "C").data) :=
  ⟨by decide, by decide, by decide⟩

/-- C4 (amended). For a destination file in which each marker occurs
exactly once, with the start marker before the end marker — content of the
form `A ++ start ++ mid ++ end ++ post` with the first start-marker
occurrence at `|A|`, the first end-marker occurrence at `|A ++ start ++
mid|`, and no end marker inside `post` — the splice preserves `A`, both
markers and `post`, and replaces the text between the markers with a newline,
the generated markdown and a newline. -/
theorem C4_splice_frame (A mid post km : String)
    (h1 : findSub startMarker.data (A ++ startMarker ++ mid ++ endMarker ++ post).data
            = some A.data.length)
    (h2 : findSub endMarker.data (A ++ startMarker ++ mid ++ endMarker ++ post).data
            = some (A ++ startMarker ++ mid).data.length)
    (h3 : findSub endMarker.data post.data = none) :
    spliceContent (A ++ startMarker ++ mid ++ endMarker ++ post) km
      = some (A ++ startMarker ++ "\n" ++ km ++ "\n" ++ endMarker ++ post) :=
  spliceContent_canonical A mid post km h1 h2 h3

theorem C4_witness :
    spliceContent ("# Readme\n" ++ startMarker ++ "old body" ++ endMarker ++ "\ntail") "NEW"
      = some ("# Readme\n" ++ startMarker ++ "\n" ++ "NEW" ++ "\n" ++ endMarker ++ "\ntail") :=
  C4_splice_frame "# Readme\n" "old body" "\ntail" "NEW" (by decide) (by decide) (by decide)

/-- C5 counterexample. Splicing is not idempotent in general: when the
end marker precedes the start marker, the second application duplicates the
spliced block, so the file after two applications differs from the file
after one. -/
theorem C5_counterexample :
    spliceContent (endMarker ++ startMarker) "K"
      = some (endMarker ++ startMarker ++ "\nK\n" ++ endMarker ++ startMarker) ∧
    spliceContent (endMarker ++ startMarker ++ "\nK\n" ++ endMarker ++ startMarker) "K"
      = some (endMarker ++ startMarker ++ "\nK\n" ++ endMarker ++ startMarker ++ "\nK\n") ∧
    (endMarker ++ startMarker ++ "\nK\n" ++ endMarker ++ startMarker : String)
      ≠ endMarker ++ startMarker ++ "\nK\n" ++ endMarker ++ startMarker ++ "\nK\n" :=
  ⟨by decide, by decide, by decide⟩

/-- C5 (amended). For a well-formed destination file (each marker
occurring exactly once, start before end) and a markdown string that does not
introduce an earlier end-marker occurrence in the spliced region, the splice
is idempotent: the second application reproduces the first application's
output exactly. -/
theorem C5_splice_idempotent_wellformed (A mid post km : String)
    (h1 : findSub startMarker.data (A ++ startMarker ++ mid ++ endMarker ++ post).data
            = some A.data.length)
    (h2 : findSub endMarker.data (A ++ startMarker ++ mid ++ endMarker ++ post).data
            = some (A ++ startMarker ++ mid).data.length)
    (h3 : findSub endMarker.data post.data = none)
    (h4 : findSub endMarker.data
            (startMarker ++ "\n" ++ km ++ "\n" ++ endMarker ++ post).data
            = some (startMarker ++ "\n" ++ km ++ "\n").data.length) :
    spliceContent (A ++ startMarker ++ mid ++ endMarker ++ post) km
        = some (A ++ startMarker ++ "\n" ++ km ++ "\n" ++ endMarker ++ post) ∧
    spliceContent (A ++ startMarker ++ "\n" ++ km ++ "\n" ++ endMarker ++ post) km
        = some (A ++ startMarker ++ "\n" ++ km ++ "\n" ++ endMarker ++ post) := by
  have hSne : startMarker.data ≠ [] := by decide
  have hEne : endMarker.data ≠ [] := by decide
  have hSlen : startMarker.data.length = 21 := by decide
  have hElen : endMarker.data.length = 19 := by decide
  refine ⟨spliceContent_canonical A mid post km h1 h2 h3, ?_⟩
  -- Regroup the once-spliced file as A ++ start ++ ("\n" ++ km ++ "\n") ++ end ++ post.
  have hassoc : A ++ startMarker ++ "\n" ++ km ++ "\n" ++ endMarker ++ post
      = A ++ startMarker ++ ("\n" ++ km ++ "\n") ++ endMarker ++ post := by
    refine String.ext ?_
    simp [String.data_append, List.append_assoc]
  -- Shared-prefix view of the original and the spliced file.
  have hc_u : (A ++ startMarker ++ mid ++ endMarker ++ post).data
      = (A.data ++ startMarker.data) ++ (mid ++ endMarker ++ post).data := by
    simp [String.data_append, List.append_assoc]
  have hc1_u : (A ++ startMarker ++ ("\n" ++ km ++ "\n") ++ endMarker ++ post).data
      = (A.data ++ startMarker.data) ++ ("\n" ++ km ++ "\n" ++ endMarker ++ post).data := by
    simp [String.data_append, List.append_assoc]
  -- Tail view used to transport h4.
  have hA_tail : (A ++ startMarker ++ ("\n" ++ km ++ "\n") ++ endMarker ++ post).data
      = A.data ++ (startMarker ++ "\n" ++ km ++ "\n" ++ endMarker ++ post).data := by
    simp [String.data_append, List.append_assoc]
  have htail_s : (startMarker ++ "\n" ++ km ++ "\n" ++ endMarker ++ post).data
      = startMarker.data ++ ("\n" ++ km ++ "\n" ++ endMarker ++ post).data := by
    simp [String.data_append, List.append_assoc]
  rcases findSub_sound startMarker.data hSne _ _ h1 with ⟨_, hmin1⟩
  rcases findSub_sound endMarker.data hEne _ _ h2 with ⟨_, hmin2⟩
  rcases findSub_sound endMarker.data hEne _ _ h4 with ⟨hat4, hmin4⟩
  -- first start-marker occurrence in the spliced file is still at |A|
  have h1' : findSub startMarker.data
      (A ++ startMarker ++ ("\n" ++ km ++ "\n") ++ endMarker ++ post).data
      = some A.data.length := by
    refine findSub_complete _ _ _ ?_ ?_
    · rw [hA_tail, List.drop_left, htail_s]
      exact isPrefixOf_self_append _ _
    · intro j hj
      rw [hc1_u,
          isPrefixOf_drop_congr startMarker.data (A.data ++ startMarker.data)
            (("\n" ++ km ++ "\n" ++ endMarker ++ post).data)
            ((mid ++ endMarker ++ post).data) j
            (by rw [List.length_append]; omega),
          ← hc_u]
      exact hmin1 j hj
  -- first end-marker occurrence in the spliced file is right after the markdown
  have hiE_ge : A.data.length ≤ (A ++ startMarker ++ mid).data.length := by
    simp [String.data_append, List.length_append]
  have htE' : (A ++ startMarker ++ ("\n" ++ km ++ "\n")).data.length
      = A.data.length + (startMarker ++ "\n" ++ km ++ "\n").data.length := by
    simp [String.data_append, List.length_append]
  have h2' : findSub endMarker.data
      (A ++ startMarker ++ ("\n" ++ km ++ "\n") ++ endMarker ++ post).data
      = some (A ++ startMarker ++ ("\n" ++ km ++ "\n")).data.length := by
    refine findSub_complete _ _ _ ?_ ?_
    · rw [htE', hA_tail, List.drop_append]
      exact hat4
    · intro j hj
      by_cases hjA : j < A.data.length
      · rw [hc1_u,
            isPrefixOf_drop_congr endMarker.data (A.data ++ startMarker.data)
              (("\n" ++ km ++ "\n" ++ endMarker ++ post).data)
              ((mid ++ endMarker ++ post).data) j
              (by rw [List.length_append]; omega),
            ← hc_u]
        exact hmin2 j (by omega)
      · have hj' : j = A.data.length + (j - A.data.length) := by omega
        rw [hj', hA_tail, List.drop_append]
        refine hmin4 (j - A.data.length) ?_
        rw [htE'] at hj
        omega
  calc spliceContent (A ++ startMarker ++ "\n" ++ km ++ "\n" ++ endMarker ++ post) km
      = spliceContent (A ++ startMarker ++ ("\n" ++ km ++ "\n") ++ endMarker ++ post) km := by
        rw [hassoc]
    _ = some (A ++ startMarker ++ "\n" ++ km ++ "\n" ++ endMarker ++ post) :=
        spliceContent_canonical A ("\n" ++ km ++ "\n") post km h1' h2' h3

theorem C5_witness :
    spliceContent ("head\n" ++ startMarker ++ "OLD" ++ endMarker ++ "tail") "K"
        = some ("head\n" ++ startMarker ++ "\n" ++ "K" ++ "\n" ++ endMarker ++ "tail") ∧
    spliceContent ("head\n" ++ startMarker ++ "\n" ++ "K" ++ "\n" ++ endMarker ++ "tail") "K"
        = some ("head\n" ++ startMarker ++ "\n" ++ "K" ++ "\n" ++ endMarker ++ "tail") :=
  C5_splice_idempotent_wellformed "head\n" "OLD" "tail" "K"
    (by decide) (by decide) (by decide) (by decide)

/-! ## Claim C6: missing destination or markers is non-fatal -/

/-- C6. In splice mode, when the destination file does not exist or
exists without both marker lines, no file is written, the warning is
emitted, and the run exits with status 0. -/
theorem C6_missing_dest_or_markers (scr kf dest : String) (fs : List (String × String))
    (content : String) (hk : fs.lookup kf = some content)
    (hdest : fs.lookup dest = none ∨
      ∃ c, fs.lookup dest = some c ∧
        (containsSub startMarker.data c.data = false ∨
         containsSub endMarker.data c.data = false)) :
    scriptMain [scr, kf, dest] fs = ⟨0, none, true⟩ := by
  unfold scriptMain
  simp only [hk]
  rcases hdest with h | ⟨c, hc, hm⟩
  · simp only [h]
    rfl
  · simp only [hc]
    unfold update_readme
    have hsp : spliceContent c (generate_markdown kf content) = none := by
      unfold spliceContent
      rw [if_neg]
      rcases hm with h | h <;> simp [h]
    simp only [hsp]

theorem C6_witness :
    scriptMain ["generate_keymap.py", "km.keymap", "README.md"]
        [("km.keymap", "x"), ("README.md", "no markers here")] = ⟨0, none, true⟩ :=
  C6_missing_dest_or_markers "generate_keymap.py" "km.keymap" "README.md"
    [("km.keymap", "x"), ("README.md", "no markers here")] "x" (by decide)
    (Or.inr ⟨"no markers here", by decide, Or.inl (by decide)⟩)

end ZmkKeymap
